import Mathlib

/-!
# Verification of the `gait` CLI (AI-powered git commit messages)

Shallow embedding of the repository's JavaScript sources:

* `src/lib/ollama.js`   — `generateCommitMessage` (HTTP attempt + CLI fallback)
* `src/lib/ai.js`       — `generateWithAIProvider` (provider dispatcher)
* `src/lib/config.js`   — `loadConfig` / `saveConfig` (v1, `model` key)
* `src/unnamed/part_001`— `loadConfig` / `saveConfig` (v2, providers record)
* `src/lib/git.js`      — `getAllChangedFiles` and friends
* `src/unnamed/part_000`— the main CLI flow
* `src/unnamed/part_003`— `buildPrompt`

Modelling conventions:

* Strings that the code manipulates character by character (model responses,
  `git diff --name-status` output) are embedded as `List Char`; strings that
  are passed through opaquely (model names, URLs, diff text, prompts) stay
  `String`.  JavaScript `String.prototype.trim`, `split` and `Array.join`
  become `trimChars`, `splitOnChar` and `joinNl` below.  (JS `trim` also
  strips exotic Unicode space characters; `isWsChar` models the common ASCII
  white-space set, which is what the repository's data can contain.)
* External effects (the axios HTTP POST, `spawnSync`/`execSync` subprocesses,
  the filesystem) are parameters of the embedded functions: each embedded
  operation takes the outcome the external world would produce and returns
  its result together with a trace of the observable effect events.
* JavaScript exceptions become `Except` results; an exception escaping the
  top-level async flow terminates the process abnormally (`RunResult.crashed`).
-/

namespace Gait

/-! ## Character-level model of the JavaScript string operations -/

/-- ASCII white-space, as recognised by `String.prototype.trim`. -/
def isWsChar (c : Char) : Bool :=
  c == ' ' || c == '\t' || c == '\n' || c == '\r' || c == '\x0b' || c == '\x0c'

/-- JS `s.trim()`: drop white-space from both ends. -/
def trimChars (l : List Char) : List Char :=
  ((l.dropWhile isWsChar).reverse.dropWhile isWsChar).reverse

/-- JS truthiness of `l.trim()` used as a filter predicate: a line is blank
iff its trim is the empty string. -/
def isBlank (l : List Char) : Bool :=
  (trimChars l).isEmpty

/-- JS `s.split(sep)` for a one-character separator. -/
def splitOnChar (sep : Char) : List Char → List (List Char)
  | [] => [[]]
  | c :: rest =>
    if c = sep then [] :: splitOnChar sep rest
    else
      match splitOnChar sep rest with
      | [] => [[c]]
      | r :: rs => (c :: r) :: rs

/-- JS `s.split('\n')`. -/
def splitNl (l : List Char) : List (List Char) := splitOnChar '\n' l

/-- JS `lines.join('\n')`. -/
def joinNl : List (List Char) → List Char
  | [] => []
  | [l] => l
  | l :: ls => l ++ '\n' :: joinNl ls

/-- The normalisation both branches of `generateCommitMessage` apply to the
raw model output: `raw.trim().split('\n').filter(l => l.trim()).join('\n')`. -/
def normalize (s : List Char) : List Char :=
  joinNl ((splitNl (trimChars s)).filter fun l => !(isBlank l))

/-! ### Lemmas about `splitOnChar` / `joinNl` / `trimChars` -/

theorem splitOnChar_ne_nil (sep : Char) (l : List Char) : splitOnChar sep l ≠ [] := by
  cases l with
  | nil => simp [splitOnChar]
  | cons c rest =>
    simp only [splitOnChar]
    split
    · simp
    · split
      · simp
      · simp

theorem mem_splitOnChar_not_mem (sep : Char) (l : List Char) :
    ∀ s ∈ splitOnChar sep l, sep ∉ s := by
  induction l with
  | nil => simp [splitOnChar]
  | cons c rest ih =>
    intro s hs
    simp only [splitOnChar] at hs
    by_cases hc : c = sep
    · rw [if_pos hc] at hs
      rcases List.mem_cons.mp hs with h | h
      · simp [h]
      · exact ih s h
    · rw [if_neg hc] at hs
      rcases hrec : splitOnChar sep rest with _ | ⟨r, rs⟩
      · exact absurd hrec (splitOnChar_ne_nil sep rest)
      · rw [hrec] at hs
        rcases List.mem_cons.mp hs with h | h
        · subst h
          intro hmem
          rcases List.mem_cons.mp hmem with h1 | h1
          · exact hc h1.symm
          · exact ih r (by rw [hrec]; exact List.mem_cons_self r rs) h1
        · exact ih s (by rw [hrec]; exact List.mem_cons_of_mem r h)

theorem splitOnChar_of_not_mem (sep : Char) (l : List Char) (h : sep ∉ l) :
    splitOnChar sep l = [l] := by
  induction l with
  | nil => simp [splitOnChar]
  | cons c rest ih =>
    have hc : ¬ c = sep := fun hcc => h (by simp [hcc])
    have hrest : sep ∉ rest := fun hm => h (List.mem_cons_of_mem c hm)
    simp only [splitOnChar, if_neg hc, ih hrest]

theorem splitOnChar_append_cons (sep : Char) (l t : List Char) (h : sep ∉ l) :
    splitOnChar sep (l ++ sep :: t) = l :: splitOnChar sep t := by
  induction l with
  | nil => simp [splitOnChar]
  | cons c rest ih =>
    have hc : ¬ c = sep := fun hcc => h (by simp [hcc])
    have hrest : sep ∉ rest := fun hm => h (List.mem_cons_of_mem c hm)
    simp only [List.cons_append, splitOnChar, if_neg hc]
    rw [show rest ++ sep :: t = List.append rest (sep :: t) from rfl] at ih
    rw [ih hrest]

theorem splitOnChar_joinNl (ls : List (List Char)) (hne : ls ≠ [])
    (h : ∀ s ∈ ls, '\n' ∉ s) : splitNl (joinNl ls) = ls := by
  induction ls with
  | nil => exact absurd rfl hne
  | cons a ls ih =>
    cases ls with
    | nil =>
      simp only [joinNl, splitNl]
      exact splitOnChar_of_not_mem '\n' a (h a (List.mem_cons_self a []))
    | cons b rest =>
      have hjoin : joinNl (a :: b :: rest) = a ++ '\n' :: joinNl (b :: rest) := rfl
      rw [hjoin]
      unfold splitNl
      rw [splitOnChar_append_cons '\n' a (joinNl (b :: rest))
        (h a (List.mem_cons_self a (b :: rest)))]
      have := ih (by simp) (fun s hs => h s (List.mem_cons_of_mem a hs))
      unfold splitNl at this
      rw [this]

/-! ### White-space trimming lemmas -/

/-- The list starts with a non-white-space character. -/
def headNonWs (l : List Char) : Prop := ∃ c t, l = c :: t ∧ isWsChar c = false

/-- The list ends with a non-white-space character. -/
def lastNonWs (l : List Char) : Prop := ∃ t c, l = t ++ [c] ∧ isWsChar c = false

theorem dropWhile_head_false {α : Type} (p : α → Bool) (l : List α) (c : α) (t : List α)
    (h : l.dropWhile p = c :: t) : p c = false := by
  induction l with
  | nil => simp at h
  | cons a rest ih =>
    rw [List.dropWhile_cons] at h
    split at h
    · exact ih h
    · cases h
      simp_all

theorem mem_dropWhile_of_mem {α : Type} (p : α → Bool) (l : List α) (x : α)
    (hx : x ∈ l) (hp : p x = false) : x ∈ l.dropWhile p := by
  induction l with
  | nil => simp at hx
  | cons a rest ih =>
    rw [List.dropWhile_cons]
    split
    · rcases List.mem_cons.mp hx with h | h
      · subst h; simp_all
      · exact ih h
    · exact hx

theorem exists_dropWhile_append {α : Type} (p : α → Bool) (l : List α) :
    ∃ t, l = t ++ l.dropWhile p := by
  induction l with
  | nil => exact ⟨[], rfl⟩
  | cons a rest ih =>
    rw [List.dropWhile_cons]
    split
    · obtain ⟨t, ht⟩ := ih
      exact ⟨a :: t, by simp [ht.symm]⟩
    · exact ⟨[], rfl⟩

theorem trimChars_eq_self (l : List Char) (h1 : headNonWs l) (h2 : lastNonWs l) :
    trimChars l = l := by
  obtain ⟨c, t, hl1, hc⟩ := h1
  obtain ⟨t', c', hl2, hc'⟩ := h2
  unfold trimChars
  have hd : l.dropWhile isWsChar = l := by
    rw [hl1, List.dropWhile_cons, if_neg (by simp [hc])]
  rw [hd, hl2]
  have hrev : (t' ++ [c']).reverse = c' :: t'.reverse := by simp
  rw [hrev, List.dropWhile_cons, if_neg (by simp [hc'])]
  simp

theorem trimChars_lastNonWs (l : List Char) : trimChars l = [] ∨ lastNonWs (trimChars l) := by
  unfold trimChars
  rcases he : (l.dropWhile isWsChar).reverse.dropWhile isWsChar with _ | ⟨c, t⟩
  · left; simp
  · right
    refine ⟨t.reverse, c, by simp, ?_⟩
    exact dropWhile_head_false isWsChar (l.dropWhile isWsChar).reverse c t he

theorem trimChars_headNonWs (l : List Char) : trimChars l = [] ∨ headNonWs (trimChars l) := by
  rcases hd : l.dropWhile isWsChar with _ | ⟨c, t⟩
  · left; simp [trimChars, hd]
  · have hc : isWsChar c = false := dropWhile_head_false isWsChar l c t hd
    rcases htrim : trimChars l with _ | ⟨c0, t0⟩
    · left; rfl
    · right
      obtain ⟨pre, hpre⟩ :=
        exists_dropWhile_append isWsChar (l.dropWhile isWsChar).reverse
      have hdec : l.dropWhile isWsChar = trimChars l ++ pre.reverse := by
        unfold trimChars
        conv_lhs => rw [← List.reverse_reverse (l.dropWhile isWsChar), hpre]
        simp
      rw [hd, htrim] at hdec
      have hcc : c = c0 := by
        have := hdec
        simp only [List.cons_append] at this
        exact (List.cons.injEq _ _ _ _ ▸ this).1
      refine ⟨c0, t0, rfl, ?_⟩
      rw [← hcc]; exact hc

theorem trimChars_ne_nil (l : List Char) (x : Char) (hx : x ∈ l)
    (hp : isWsChar x = false) : trimChars l ≠ [] := by
  have h1 : x ∈ l.dropWhile isWsChar := mem_dropWhile_of_mem isWsChar l x hx hp
  have h2 : x ∈ (l.dropWhile isWsChar).reverse := by simpa using h1
  have h3 : x ∈ (l.dropWhile isWsChar).reverse.dropWhile isWsChar :=
    mem_dropWhile_of_mem isWsChar _ x h2 hp
  intro hcontra
  unfold trimChars at hcontra
  rw [List.reverse_eq_nil_iff] at hcontra
  rw [hcontra] at h3
  simp at h3

theorem isBlank_eq_false (m : List Char) (x : Char) (hx : x ∈ m)
    (hp : isWsChar x = false) : isBlank m = false := by
  unfold isBlank
  rcases h : trimChars m with _ | ⟨c, t⟩
  · exact absurd h (trimChars_ne_nil m x hx hp)
  · rfl

/-! ### Last-element helper and the structure of `normalize` -/

/-- Last element of a list, if any. -/
def lastElem? {α : Type} : List α → Option α
  | [] => none
  | [a] => some a
  | _ :: b :: t => lastElem? (b :: t)

theorem lastElem?_cons_ne_nil {α : Type} (x : α) (m : List α) (h : m ≠ []) :
    lastElem? (x :: m) = lastElem? m := by
  cases m with
  | nil => exact absurd rfl h
  | cons b t => rfl

theorem ne_nil_of_lastElem? {α : Type} (m : List α) (a : α) (h : lastElem? m = some a) :
    m ≠ [] := by
  intro hc; rw [hc] at h; simp [lastElem?] at h

theorem lastElem?_filter {α : Type} (P : α → Bool) (ls : List α) (a : α)
    (h : lastElem? ls = some a) (hp : P a = true) :
    lastElem? (ls.filter P) = some a := by
  induction ls with
  | nil => simp [lastElem?] at h
  | cons x rest ih =>
    cases rest with
    | nil =>
      simp only [lastElem?, Option.some.injEq] at h
      subst h
      simp [List.filter_cons, hp, lastElem?]
    | cons y t =>
      have hx : lastElem? (y :: t) = some a := h
      have ihv := ih hx
      rw [List.filter_cons]
      split
      · rw [lastElem?_cons_ne_nil x _ (ne_nil_of_lastElem? _ a ihv)]
        exact ihv
      · exact ihv

theorem lastElem?_concat {α : Type} (t : List α) (c : α) :
    lastElem? (t ++ [c]) = some c := by
  induction t with
  | nil => rfl
  | cons x rest ih =>
    rw [List.cons_append, lastElem?_cons_ne_nil x _ (by simp)]
    exact ih

theorem splitOnChar_lastElem (sep : Char) (t : List Char) (c : Char) (hc : ¬ c = sep) :
    ∃ r, lastElem? (splitOnChar sep (t ++ [c])) = some (r ++ [c]) := by
  induction t with
  | nil =>
    refine ⟨[], ?_⟩
    simp [splitOnChar, if_neg hc, lastElem?]
  | cons a rest ih =>
    obtain ⟨r0, hr0⟩ := ih
    rw [List.cons_append]
    by_cases ha : a = sep
    · refine ⟨r0, ?_⟩
      simp only [splitOnChar, if_pos ha]
      rw [lastElem?_cons_ne_nil [] _ (splitOnChar_ne_nil sep (rest ++ [c]))]
      exact hr0
    · rcases hsp : splitOnChar sep (rest ++ [c]) with _ | ⟨r, rs⟩
      · exact absurd hsp (splitOnChar_ne_nil sep (rest ++ [c]))
      · simp only [splitOnChar, if_neg ha, hsp]
        cases rs with
        | nil =>
          rw [hsp] at hr0
          simp only [lastElem?, Option.some.injEq] at hr0
          subst hr0
          exact ⟨a :: r0, by simp [lastElem?]⟩
        | cons y t' =>
          refine ⟨r0, ?_⟩
          rw [hsp] at hr0
          rw [lastElem?_cons_ne_nil _ _ (by simp)]
          rw [lastElem?_cons_ne_nil _ _ (by simp)] at hr0
          exact hr0

theorem joinNl_lastElem (ls : List (List Char)) (r : List Char) (c : Char)
    (h : lastElem? ls = some (r ++ [c])) : ∃ m, joinNl ls = m ++ [c] := by
  induction ls with
  | nil => simp [lastElem?] at h
  | cons a rest ih =>
    cases rest with
    | nil =>
      simp only [lastElem?, Option.some.injEq] at h
      exact ⟨r, by simp [joinNl, h]⟩
    | cons b t =>
      have hb : lastElem? (b :: t) = some (r ++ [c]) := h
      obtain ⟨m, hm⟩ := ih hb
      refine ⟨a ++ '\n' :: m, ?_⟩
      have : joinNl (a :: b :: t) = a ++ '\n' :: joinNl (b :: t) := rfl
      rw [this, hm]
      simp

theorem joinNl_head (a : List Char) (ls : List (List Char)) (c : Char) (t : List Char)
    (ha : a = c :: t) : ∃ m, joinNl (a :: ls) = c :: m := by
  cases ls with
  | nil => exact ⟨t, by simp [joinNl, ha]⟩
  | cons b r =>
    refine ⟨t ++ '\n' :: joinNl (b :: r), ?_⟩
    have : joinNl (a :: b :: r) = a ++ '\n' :: joinNl (b :: r) := rfl
    rw [this, ha]
    simp

theorem splitOnChar_cons_structure (sep c : Char) (rest : List Char) (hc : ¬ c = sep) :
    ∃ r rs, splitOnChar sep (c :: rest) = (c :: r) :: rs := by
  rcases hsp : splitOnChar sep rest with _ | ⟨r, rs⟩
  · exact absurd hsp (splitOnChar_ne_nil sep rest)
  · exact ⟨r, rs, by simp only [splitOnChar, if_neg hc, hsp]⟩

theorem normalize_of_trim_nil (s : List Char) (h : trimChars s = []) :
    normalize s = [] := by
  unfold normalize
  rw [h]
  have h1 : splitNl [] = [[]] := rfl
  rw [h1]
  have h2 : isBlank ([] : List Char) = true := rfl
  simp [List.filter_cons, h2, joinNl]

theorem normalize_headNonWs (s : List Char) :
    normalize s = [] ∨ headNonWs (normalize s) := by
  rcases trimChars_headNonWs s with h0 | ⟨c, tt, htc, hcws⟩
  · exact Or.inl (normalize_of_trim_nil s h0)
  · right
    have hcn : ¬ c = '\n' := by
      intro hcc; rw [hcc] at hcws; simp [isWsChar] at hcws
    obtain ⟨r, rs, hsp⟩ := splitOnChar_cons_structure '\n' c tt hcn
    have hblank : isBlank (c :: r) = false :=
      isBlank_eq_false (c :: r) c (List.mem_cons_self c r) hcws
    unfold normalize
    rw [htc]
    unfold splitNl
    rw [hsp, List.filter_cons, if_pos (by simp [hblank])]
    obtain ⟨m, hm⟩ := joinNl_head (c :: r) _ c r rfl
    exact ⟨c, m, hm, hcws⟩

theorem normalize_lastNonWs (s : List Char) :
    normalize s = [] ∨ lastNonWs (normalize s) := by
  rcases trimChars_lastNonWs s with h0 | ⟨tt, c, htc, hcws⟩
  · exact Or.inl (normalize_of_trim_nil s h0)
  · right
    have hcn : ¬ c = '\n' := by
      intro hcc; rw [hcc] at hcws; simp [isWsChar] at hcws
    obtain ⟨r, hr⟩ := splitOnChar_lastElem '\n' tt c hcn
    have hblank : (fun l => !(isBlank l)) (r ++ [c]) = true := by
      simp [isBlank_eq_false (r ++ [c]) c (by simp) hcws]
    have hfil := lastElem?_filter (fun l => !(isBlank l)) (splitOnChar '\n' (tt ++ [c]))
      (r ++ [c]) hr hblank
    unfold normalize
    rw [htc]
    unfold splitNl
    obtain ⟨m, hm⟩ := joinNl_lastElem _ r c hfil
    exact ⟨m, c, hm, hcws⟩

theorem normalize_lines (s : List Char) :
    normalize s = [] ∨ ∀ l ∈ splitNl (normalize s), isBlank l = false := by
  rcases hls : (splitNl (trimChars s)).filter (fun l => !(isBlank l)) with _ | ⟨a, rest⟩
  · left
    unfold normalize
    rw [hls]
    rfl
  · right
    intro l hl
    have hjoin : normalize s = joinNl (a :: rest) := by unfold normalize; rw [hls]
    have hmem : ∀ s' ∈ a :: rest, '\n' ∉ s' := by
      intro s' hs'
      have : s' ∈ (splitNl (trimChars s)).filter (fun l => !(isBlank l)) := by
        rw [hls]; exact hs'
      exact mem_splitOnChar_not_mem '\n' (trimChars s) s' (List.mem_of_mem_filter this)
    have hsplit : splitNl (normalize s) = a :: rest := by
      rw [hjoin]
      exact splitOnChar_joinNl (a :: rest) (by simp) hmem
    rw [hsplit] at hl
    have : l ∈ (splitNl (trimChars s)).filter (fun l => !(isBlank l)) := by
      rw [hls]; exact hl
    have := List.of_mem_filter this
    simpa using this

/-- Fixed-point property: `normalize` output has no leading or trailing
white-space and (when split back into lines) no blank lines. -/
theorem normalize_trim_fixed (s : List Char) : trimChars (normalize s) = normalize s := by
  rcases hn : normalize s with _ | ⟨c, t⟩
  · rfl
  · rcases normalize_headNonWs s with h1 | h1
    · rw [hn] at h1; cases h1
    · rcases normalize_lastNonWs s with h2 | h2
      · rw [hn] at h2; cases h2
      · rw [← hn]
        exact trimChars_eq_self (normalize s) h1 h2

/-! ## JSON values

The configuration file holds JSON.  `JSON.parse` / `JSON.stringify` belong to
the JavaScript platform, not to this repository, so the file system is
modelled semantically: a stored config file is either unreadable, invalid
JSON, or a JSON value (what a successful `JSON.parse` would return).  A
successful `writeFileSync(JSON.stringify(c))` stores the value `c`, which is
the platform contract for JSON-representable values. -/

/-- A JSON value.  Numbers are modelled as integers (the repository's config
only ever stores strings; no claim depends on float behaviour). -/
inductive JValue where
  | null
  | bool (b : Bool)
  | num (n : Int)
  | str (s : String)
  | arr (xs : List JValue)
  | obj (fields : List (String × JValue))

/-- State of the config file on disk. -/
inductive FileState where
  | unreadable            -- `readFileSync` throws
  | invalid               -- contents are not valid JSON: `JSON.parse` throws
  | valid (v : JValue)    -- contents parse to `v`

/-- The slice of the file system the config module touches. -/
structure FS where
  dirExists : Bool
  file : Option FileState

/-- Property lookup `v[k]` on a JSON value (JS: `undefined` on non-objects). -/
def jsGet (v : JValue) (k : String) : Option JValue :=
  match v with
  | .obj fields => fields.lookup k
  | _ => none

/-- JS truthiness of a JSON value. -/
def jsTruthy : JValue → Bool
  | .null => false
  | .bool b => b
  | .num n => n != 0
  | .str s => s != ""
  | .arr _ => true
  | .obj _ => true

/-- JS string coercion of a JSON value, as a template literal would apply. -/
def jsToString : JValue → String
  | .null => "null"
  | .bool b => if b then "true" else "false"
  | .num n => toString n
  | .str s => s
  | .arr _ => ""
  | .obj _ => "[object Object]"

namespace Config

/-! Embedding of `src/lib/config.js`. -/

def DEFAULT_MODEL : String := "gpt-oss:20b"

def defaultConfig : JValue := .obj [("model", .str DEFAULT_MODEL)]

/-- `loadConfig()`: the `try` block returns the parsed file when it exists
and parses; every failure inside the `try` is caught and falls through to
the default, as does the file-absent path. -/
def loadConfig (fs : FS) : JValue :=
  match fs.file with
  | none => defaultConfig                 -- `existsSync` is false: skip the try body
  | some .unreadable => defaultConfig     -- `readFileSync` throws, caught
  | some .invalid => defaultConfig        -- `JSON.parse` throws, caught
  | some (.valid v) => v

/-- `saveConfig(config)`: create the dot-directory if needed and write
`JSON.stringify(config)`.  `writeOk` is the outcome the file system produces
for the `mkdirSync`/`writeFileSync` pair; the returned `Bool` is whether the
caught error object was returned (`true`) or `undefined` (`false`). -/
def saveConfig (c : JValue) (fs : FS) (writeOk : Bool) : FS × Bool :=
  if writeOk then (⟨true, some (.valid c)⟩, false)
  else (fs, true)

end Config

namespace ConfigV2

/-! Embedding of the config module in `src/unnamed/part_001` (same shape,
different defaults: a per-provider record). -/

def DEFAULT_MODEL : String := "ollama/llama3"

def DEFAULT_PROVIDERS : JValue := .obj [("ollama", .obj [("model", .str "llama3")])]

def defaultConfig : JValue :=
  .obj [("providers", DEFAULT_PROVIDERS), ("activeProvider", .str "ollama")]

def loadConfig (fs : FS) : JValue :=
  match fs.file with
  | none => defaultConfig
  | some .unreadable => defaultConfig
  | some .invalid => defaultConfig
  | some (.valid v) => v

def saveConfig (c : JValue) (fs : FS) (writeOk : Bool) : FS × Bool :=
  if writeOk then (⟨true, some (.valid c)⟩, false)
  else (fs, true)

end ConfigV2

/-! ## The Ollama client (`src/lib/ollama.js`) -/

/-- The JSON body of the generate request: exactly the three fields
`{ model, prompt, stream }`. -/
structure OllamaBody where
  model : String
  prompt : String
  stream : Bool
deriving DecidableEq

/-- An outbound HTTP request made through axios. -/
structure OllamaRequest where
  url : String
  method : String
  body : OllamaBody
deriving DecidableEq

/-- Outcome of the awaited `axios.post`:
`ok resp` is a successful reply whose JSON body's `response` field is `resp`
(`none` when the field is absent or `null`); `fail` is a thrown error
(network failure, timeout, non-2xx status). -/
inductive HttpOutcome where
  | ok (response : Option (List Char))
  | fail
deriving DecidableEq

/-- Outcome of `spawnSync('ollama', ['run', model])`: `err` is whether the
`error` property was set, `stdout` the captured output. -/
structure CliOutcome where
  err : Bool
  stdout : List Char
deriving DecidableEq

/-- Observable effect events of a run. -/
inductive Event where
  | printHelp
  | printText (s : String)
  | printMsg (m : List Char)
  | gitCheck
  | stagedCheck
  | configLoad
  | configSave
  | modelsList
  | stagedFilesList
  | diffRead
  | promptBuild
  | httpPost (r : OllamaRequest)
  | cliRun (model : String)
  | userEdit
  | gitCommit (m : List Char)
deriving DecidableEq

/-- `generateCommitMessage(model, prompt)`: one HTTP try; on a thrown HTTP
error, one CLI fallback; a CLI spawn error throws
`'Failed to communicate with Ollama'`. -/
def generateCommitMessage (model prompt : String) (http : HttpOutcome)
    (cli : CliOutcome) : Except String (List Char) × List Event :=
  let req : OllamaRequest :=
    ⟨"http://localhost:11434/api/generate", "POST", ⟨model, prompt, false⟩⟩
  match http with
  | .ok resp =>
    -- const raw = res.data.response?.trim() ?? '';
    let raw := match resp with
      | some r => trimChars r
      | none => []
    let lines := (splitNl raw).filter fun l => !(isBlank l)
    (.ok (joinNl lines), [.httpPost req])
  | .fail =>
    if cli.err then
      (.error "Failed to communicate with Ollama", [.httpPost req, .cliRun model])
    else
      let raw := trimChars cli.stdout
      let lines := (splitNl raw).filter fun l => !(isBlank l)
      (.ok (joinNl lines), [.httpPost req, .cliRun model])

/-- The raw model response a run of `generateCommitMessage` normalises:
the HTTP reply's `response` field when the HTTP attempt succeeded, otherwise
the fallback CLI's stdout. -/
def rawResponse (http : HttpOutcome) (cli : CliOutcome) : List Char :=
  match http with
  | .ok resp => resp.getD []
  | .fail => cli.stdout

/-- Recogniser for HTTP request events. -/
def isHttpEv : Event → Bool
  | .httpPost _ => true
  | _ => false

/-- Recogniser for CLI fallback events. -/
def isCliEv : Event → Bool
  | .cliRun _ => true
  | _ => false

/-! ## The provider dispatcher (`src/lib/ai.js`) -/

/-- The own keys of the `providerMap` object literal.  Its values are
dynamic-import thunks for the corresponding SDK packages. -/
def providerMap : List String := ["openai", "anthropic", "google", "cohere", "mistral"]

/-- Property names every plain object literal inherits from
`Object.prototype`.  `providerMap[provider]` is a JS property lookup that
walks the prototype chain, so for these names it yields a truthy inherited
value even though the name is not an own key of `providerMap`, and the
`!providerFn` guard does not fire. -/
def objectProtoKeys : List String :=
  ["constructor", "hasOwnProperty", "isPrototypeOf", "propertyIsEnumerable",
   "toLocaleString", "toString", "valueOf", "__proto__", "__defineGetter__",
   "__defineSetter__", "__lookupGetter__", "__lookupSetter__"]

/-- The inherited `Object.prototype` members that return a value when called
with an undefined receiver, as `await providerFn()` does in a strict-mode
module: `Object()` yields a fresh object, `Object.prototype.toString` yields
`'[object Undefined]'`, and `isPrototypeOf` with no argument returns `false`
before touching its receiver.  The remaining members coerce their receiver
with `ToObject(undefined)` and throw a TypeError, as does calling the
non-callable `__proto__` value. -/
def protoCallReturns : List String := ["constructor", "toString", "isPrototypeOf"]

/-- A request issued through the AI SDK's `generateText`. -/
structure AIRequest where
  model : String
  prompt : String
deriving DecidableEq

/-- The `switch (provider)` statement and the code after it: the five own
keys each pick a module binding and fall through to the `generateText` call;
every other name hits the default case, which throws. -/
def aiProviderSwitch (provider model prompt : String) (gen : Except Unit String) :
    Except String String × List AIRequest :=
  let known := provider == "openai" || provider == "anthropic" ||
    provider == "google" || provider == "cohere" || provider == "mistral"
  if known then
    -- const modelId = `${provider}/${model}`; await generateText({...})
    let req : AIRequest := ⟨provider ++ "/" ++ model, prompt⟩
    match gen with
    | .ok text => (.ok text, [req])
    | .error _ => (.error "generateText threw", [req])
  else
    (.error ("Provider " ++ provider ++ " not implemented"), [])

/-- `generateWithAIProvider(provider, model, prompt)`.  `importOk` is whether
the awaited dynamic `import()` of the SDK module resolves; `gen` is the
outcome `generateText` would produce.  Returns the result together with the
list of requests actually issued. -/
def generateWithAIProvider (provider model prompt : String) (importOk : Bool)
    (gen : Except Unit String) : Except String String × List AIRequest :=
  -- const providerFn = providerMap[provider];  (prototype-chain lookup:
  -- own keys first, then the inherited Object.prototype properties)
  let providerFnTruthy :=
    providerMap.contains provider || objectProtoKeys.contains provider
  -- if (!providerFn) { throw new Error(`Unsupported provider: ${provider}`); }
  if providerFnTruthy = false then
    (.error ("Unsupported provider: " ++ provider), [])
  else
    -- const providerModule = await providerFn();
    if providerMap.contains provider then
      -- an own key: the thunk imports the SDK package
      if importOk = false then (.error "module import failed", [])
      else aiProviderSwitch provider model prompt gen
    else
      -- an inherited Object.prototype member, called with an undefined
      -- receiver: it either throws a TypeError or returns, after which the
      -- switch default throws
      if protoCallReturns.contains provider = false then
        (.error "TypeError", [])
      else aiProviderSwitch provider model prompt gen

/-! ## Git helpers (`src/lib/git.js`) -/

/-- An entry of `getAllChangedFiles`' result: `{ path, status }` with
`status` one of the literal strings `'staged'` / `'unstaged'`. -/
structure ChangedFile where
  path : List Char
  status : String
deriving DecidableEq

/-- Parse `git diff --name-status` output: JS-falsy (empty) output yields
nothing; otherwise each line is split on tabs and contributes `parts[1]`
when it has at least two parts. -/
def parseNameStatus (out : List Char) : List (List Char) :=
  if out = [] then []
  else (splitOnChar '\n' out).filterMap fun line =>
    match splitOnChar '\t' line with
    | _ :: p :: _ => some p
    | _ => none

/-- The body of the unstaged `forEach`: push `{ path, status: 'unstaged' }`
unless some already-collected entry has the same path. -/
def addUnstaged (files : List ChangedFile) (p : List Char) : List ChangedFile :=
  if files.any fun f => f.path == p then files
  else files ++ [⟨p, "unstaged"⟩]

/-- `getAllChangedFiles()`, applied to the outputs of
`git diff --cached --name-status` and `git diff --name-status`. -/
def getAllChangedFiles (stagedOut unstagedOut : List Char) : List ChangedFile :=
  let files := (parseNameStatus stagedOut).map fun p => (⟨p, "staged"⟩ : ChangedFile)
  (parseNameStatus unstagedOut).foldl addUnstaged files

/-! ## The prompt builder (`src/unnamed/part_003`) -/

/-- The fixed instruction text of `buildPrompt`, up to and including the
trailing `Diff:` newline of the template literal. -/
def promptTemplate : String :=
  "Analyze the following git diff and create a conventional commit message.\n\nInstructions:\n1. Determine the commit type: feat, fix, docs, style, refactor, test, chore, perf, ci, or build\n2. If possible, detect a relevant scope (e.g., filename, component, or module name)\n3. Write a concise subject (under 50 characters)\n4. Add a body with bullet points (each line max 120 characters)\n5. Add a footer for issue references (e.g., \"Closes #123\", \"Refs #456\")\n\nFormat:\ntype(scope): subject\n\n- Bullet point 1 (max 120 chars per line)\n- Bullet point 2 (max 120 chars per line)\n\nFooter: Closes #123\n\nExamples:\n- feat(auth): add OAuth login\n\n- Added Google OAuth 2.0 support with PKCE flow\n- Token refresh handled automatically with secure storage\n\nCloses #45\n\n- fix(api): handle null response\n\n- Added null check for API response data\n- Returns empty array when no results found\n\nRefs #78\n\nDiff:\n"

/-- `buildPrompt(diff)`: the template literal ending in `Diff:\n${diff}`. -/
def buildPrompt (diff : String) : String := promptTemplate ++ diff

/-! ## The main CLI flow (`src/unnamed/part_000`)

Flags are modelled after minimist's alias resolution: `model`, `setModel`
and `listFlag` are declared as string options (so a present-but-empty value
is JS-falsy and behaves like an absent one), the rest are booleans.
Print payloads that only interpolate runtime data (error messages, debug
dumps) are abstracted to fixed marker strings; the no-staged-changes message
is kept verbatim because a claim quotes it. -/

structure Argv where
  model : Option String
  setModel : Option String
  listFlag : Option String
  dryRun : Bool
  debug : Bool
  showStaged : Bool
  help : Bool
deriving DecidableEq

/-- JS truthiness filter for minimist string options: `'' || x` falls
through to `x`. -/
def truthyOpt : Option String → Option String
  | some s => if s = "" then none else some s
  | none => none

/-- `const model = argv.model || config.model || DEFAULT_MODEL;`
(with JS string coercion where the config value is not a string). -/
def resolveModel (argvModel : Option String) (config : JValue) : String :=
  match truthyOpt argvModel with
  | some m => m
  | none =>
    match jsGet config "model" with
    | some v => if jsTruthy v then jsToString v else Config.DEFAULT_MODEL
    | none => Config.DEFAULT_MODEL

/-- Everything the external world decides during one run of the CLI. -/
structure Env where
  gitOk : Bool                        -- `checkGit()` succeeds
  staged : Bool                       -- `hasStagedChanges()`
  fs : FS                             -- config file state for `loadConfig`
  listRes : Except Unit String        -- `execSync('ollama list')`
  stagedFilesRes : Except Unit String -- `sh('git diff --cached --name-status')`
  diffRes : Except Unit String        -- `sh('git diff --cached')`
  http : HttpOutcome                  -- the axios POST outcome
  cli : CliOutcome                    -- the `spawnSync('ollama', ...)` outcome
  userInput : List Char               -- the inquirer answer
  commitOk : Bool                     -- the `git commit` subprocess succeeds

/-- How a run of the process ends. -/
inductive RunResult where
  | exited (code : Nat)
  | crashed                           -- uncaught exception / unhandled rejection
deriving DecidableEq

def helpText : String :=
  "\ngait - AI-powered Git commit messages\n\nUsage:\n  gait                    Run with staged changes\n  gait -m <model>         Specify Ollama model\n  gait -M <model>         Set default model\n  gait -n                 Dry-run (preview only)\n  gait -s                 Show staged files\n  gait -l                 List available models\n  gait -d                 Debug mode\n  gait -h, --help         Show this help\n\nConfig:\n  Model stored in: ~/.gait/gait.json\n  "

def noStagedText : String := "No staged changes. Nothing to commit.\n"

def gitErrText : String := "git environment check failed"

def debugText : String := "Debug mode - CLI flags"

def dryRunText : String := "Dry-run mode - no commit was made"

def commitFailText : String := "Commit failed"

/-- The tail of the flow from `const diff = getDiff();` (part_000 line 125)
on: read the staged diff, build the prompt, generate, display, optionally
edit, then either stop (dry run) or commit. -/
def runGenerate (argv : Argv) (env : Env) (model : String) (pre : List Event) :
    RunResult × List Event :=
  match env.diffRes with
  | .error _ => (.crashed, pre ++ [.diffRead])  -- sh threw; rejection escapes
  | .ok d =>
    let prompt := buildPrompt d
    let gen := generateCommitMessage model prompt env.http env.cli
    match gen.1 with
    | .error _ => (.crashed, pre ++ [.diffRead, .promptBuild] ++ gen.2)
    | .ok msg =>
      let base := pre ++ [.diffRead, .promptBuild] ++ gen.2 ++ [.printMsg msg]
      if argv.dryRun then
        (.exited 0, base ++ [.printText dryRunText, .printMsg msg])
      else
        -- commitMsg = finalMsg.trim() || suggested
        let edited := trimChars env.userInput
        let commitMsg := if edited.isEmpty then msg else edited
        if env.commitOk then
          (.exited 0, base ++ [.userEdit, .gitCommit commitMsg, .printMsg commitMsg])
        else
          (.exited 1, base ++ [.userEdit, .gitCommit commitMsg, .printText commitFailText])

/-- The whole main flow of `src/unnamed/part_000`. -/
def main (argv : Argv) (env : Env) : RunResult × List Event :=
  if argv.help then
    (.exited 0, [.printHelp])
  else if env.gitOk = false then
    (.exited 1, [.gitCheck, .printText gitErrText])
  else if env.staged = false then
    (.exited 0, [.gitCheck, .stagedCheck, .printText noStagedText, .printHelp])
  else
    let config := Config.loadConfig env.fs
    match truthyOpt argv.setModel with
    | some m =>
      -- config.model = setModel; saveConfig(config)  (return value ignored)
      (.exited 0, [.gitCheck, .stagedCheck, .configLoad, .configSave,
        .printText ("Default model set to: " ++ m)])
    | none =>
      if (truthyOpt argv.listFlag).isSome then
        match env.listRes with
        | .ok s =>
          (.exited 0, [.gitCheck, .stagedCheck, .configLoad, .modelsList, .printText s])
        | .error _ =>
          (.exited 0, [.gitCheck, .stagedCheck, .configLoad, .modelsList,
            .printText "Failed to list models"])
      else
        let model := resolveModel argv.model config
        let dbgEv := if argv.debug then [Event.printText debugText] else []
        if argv.showStaged then
          match env.stagedFilesRes with
          | .error _ =>
            (.crashed,
              [.gitCheck, .stagedCheck, .configLoad] ++ dbgEv ++ [.stagedFilesList])
          | .ok files =>
            runGenerate argv env model
              ([.gitCheck, .stagedCheck, .configLoad] ++ dbgEv ++
                [.stagedFilesList, .printText files])
        else
          runGenerate argv env model ([.gitCheck, .stagedCheck, .configLoad] ++ dbgEv)

/-! ## Claim theorems -/

/-- C1: for every model and prompt, `generateCommitMessage` makes exactly one
HTTP attempt (hence at most one); the CLI fallback runs exactly when the HTTP
attempt fails, and then exactly once; a fallback spawn error makes the
function throw `'Failed to communicate with Ollama'`; when the fallback spawns
cleanly the function returns normally, so there is no second HTTP attempt and
no second fallback. -/
theorem single_try_single_fallback (model prompt : String) (http : HttpOutcome)
    (cli : CliOutcome) :
    ((generateCommitMessage model prompt http cli).2.countP isHttpEv = 1) ∧
    ((generateCommitMessage model prompt http cli).2.countP isCliEv
      = if http = HttpOutcome.fail then 1 else 0) ∧
    (http = HttpOutcome.fail → cli.err = true →
      (generateCommitMessage model prompt http cli).1
        = .error "Failed to communicate with Ollama") ∧
    (http = HttpOutcome.fail → cli.err = false →
      ∃ m, (generateCommitMessage model prompt http cli).1 = .ok m) := by
  rcases cli with ⟨err, stdout⟩
  rcases http with resp | _ <;> cases err <;>
    simp [generateCommitMessage, isHttpEv, isCliEv, List.countP_cons]

/-- Witness for C1 at a concrete failing run. -/
theorem single_try_single_fallback_witness :
    (generateCommitMessage "llama3" "p" HttpOutcome.fail ⟨true, []⟩).1
      = .error "Failed to communicate with Ollama" :=
  (single_try_single_fallback "llama3" "p" HttpOutcome.fail ⟨true, []⟩).2.2.1 rfl rfl

/-- C6: the single outbound HTTP request of `generateCommitMessage` is a POST
to the local inference endpoint whose JSON body is exactly the three fields
`{model, prompt, stream}` with `stream` false. -/
theorem http_request_shape (model prompt : String) (http : HttpOutcome)
    (cli : CliOutcome) :
    (generateCommitMessage model prompt http cli).2.filter isHttpEv
      = [.httpPost ⟨"http://localhost:11434/api/generate", "POST",
          ⟨model, prompt, false⟩⟩] := by
  rcases cli with ⟨err, stdout⟩
  rcases http with resp | _ <;> cases err <;>
    simp [generateCommitMessage, isHttpEv, List.filter_cons]

/-- C9: whichever path succeeds, the returned message is the non-blank lines
of the (whole-trimmed) raw model response joined by single newlines; it has
no blank or white-space-only lines and no leading or trailing white-space. -/
theorem normalized_message (model prompt : String) (http : HttpOutcome)
    (cli : CliOutcome) (msg : List Char)
    (h : (generateCommitMessage model prompt http cli).1 = .ok msg) :
    msg = normalize (rawResponse http cli) ∧
    (msg = [] ∨ ∀ l ∈ splitNl msg, isBlank l = false) ∧
    trimChars msg = msg := by
  have hmsg : msg = normalize (rawResponse http cli) := by
    rcases http with resp | _
    · rcases resp with _ | r <;>
        · simp [generateCommitMessage, normalize, rawResponse] at h ⊢
          exact h.symm
    · rcases hcli : cli.err with _ | _
      · simp [generateCommitMessage, hcli, normalize, rawResponse] at h ⊢
        exact h.symm
      · simp [generateCommitMessage, hcli] at h
  refine ⟨hmsg, ?_, ?_⟩
  · rw [hmsg]
    exact normalize_lines (rawResponse http cli)
  · rw [hmsg]
    exact normalize_trim_fixed (rawResponse http cli)

/-- Witness for C9 on a concrete response with blank lines and padding. -/
theorem normalized_message_witness :
    "a \x20\n b".toList = normalize (rawResponse
        (HttpOutcome.ok (some " a \x20\n\n b ".toList)) ⟨false, []⟩) ∧
    ("a \x20\n b".toList = [] ∨
      ∀ l ∈ splitNl "a \x20\n b".toList, isBlank l = false) ∧
    trimChars "a \x20\n b".toList = "a \x20\n b".toList :=
  normalized_message "m" "p" (HttpOutcome.ok (some " a \x20\n\n b ".toList))
    ⟨false, []⟩ "a \x20\n b".toList rfl

/-- C4 counterexample: `'toString'` is not one of the fixed provider names,
yet the prototype-chain lookup makes `providerMap['toString']` a truthy
inherited value, the unsupported-provider guard is skipped, and the switch
default throws `'Provider toString not implemented'` instead of
`'Unsupported provider: toString'` — refuting the original claim that every
name outside the set throws the latter. -/
theorem provider_dispatch_counterexample :
    "toString" ∉ providerMap ∧
    (generateWithAIProvider "toString" "m" "p" true (.ok "t")).1
      = .error ("Provider " ++ "toString" ++ " not implemented") ∧
    "Provider " ++ "toString" ++ " not implemented"
      ≠ "Unsupported provider: " ++ "toString" ∧
    (generateWithAIProvider "toString" "m" "p" true (.ok "t")).2 = [] :=
  ⟨by decide, rfl, by decide, rfl⟩

/-- C4 (amended): the dispatcher selects among the fixed provider names; a
name that is neither one of them nor an `Object.prototype` property name
throws `'Unsupported provider: <name>'` before making any request; every
name outside the fixed set — inherited property names included — fails with
some thrown error and makes no request; a name in the set (whose SDK
module import resolves) leads to exactly one request. -/
theorem provider_dispatch (p model prompt : String) (importOk : Bool)
    (gen : Except Unit String) :
    (p ∉ providerMap → p ∉ objectProtoKeys →
      generateWithAIProvider p model prompt importOk gen
        = (.error ("Unsupported provider: " ++ p), [])) ∧
    (p ∉ providerMap →
      (generateWithAIProvider p model prompt importOk gen).2 = [] ∧
      ∃ e, (generateWithAIProvider p model prompt importOk gen).1
        = .error e) ∧
    (p ∈ providerMap → importOk = true →
      ((generateWithAIProvider p model prompt importOk gen).2).length = 1) := by
  refine ⟨?_, ?_, ?_⟩
  · intro hp hq
    simp [generateWithAIProvider, hp, hq]
  · intro hp
    by_cases hq : p ∈ objectProtoKeys
    · have hknown : (p == "openai" || p == "anthropic" || p == "google" ||
          p == "cohere" || p == "mistral") = false := by
        simp only [providerMap, List.mem_cons, List.not_mem_nil, or_false,
          not_or] at hp
        simp [hp.1, hp.2.1, hp.2.2.1, hp.2.2.2.1, hp.2.2.2.2]
      by_cases hr : p ∈ protoCallReturns
      · constructor
        · simp [generateWithAIProvider, aiProviderSwitch, hp, hq, hr, hknown]
        · exact ⟨"Provider " ++ p ++ " not implemented",
            by simp [generateWithAIProvider, aiProviderSwitch, hp, hq, hr, hknown]⟩
      · constructor
        · simp [generateWithAIProvider, hp, hq, hr]
        · exact ⟨"TypeError", by simp [generateWithAIProvider, hp, hq, hr]⟩
    · constructor
      · simp [generateWithAIProvider, hp, hq]
      · exact ⟨"Unsupported provider: " ++ p,
          by simp [generateWithAIProvider, hp, hq]⟩
  · intro hp himp
    subst himp
    simp only [providerMap, List.mem_cons, List.not_mem_nil, or_false] at hp
    rcases hp with rfl | rfl | rfl | rfl | rfl <;>
      rcases gen with e | t <;>
        simp [generateWithAIProvider, aiProviderSwitch, providerMap]

/-- Witness for C4: a name outside both the map and `Object.prototype` is
rejected with no request; an inherited name fails with no request; a known
name makes one request. -/
theorem provider_dispatch_witness :
    generateWithAIProvider "foo" "m" "p" true (.ok "t")
      = (.error ("Unsupported provider: " ++ "foo"), []) ∧
    (generateWithAIProvider "valueOf" "m" "p" true (.ok "t")).2 = [] ∧
    ((generateWithAIProvider "openai" "gpt-4" "p" true (.ok "t")).2).length = 1 :=
  ⟨(provider_dispatch "foo" "m" "p" true (.ok "t")).1 (by decide) (by decide),
   ((provider_dispatch "valueOf" "m" "p" true (.ok "t")).2.1 (by decide)).1,
   (provider_dispatch "openai" "gpt-4" "p" true (.ok "t")).2.2 (by decide) rfl⟩

/-- C5: `loadConfig` never propagates an exception: absent, unreadable or
invalid-JSON config files yield the built-in defaults, a valid file yields
its parsed contents — in both config modules. -/
theorem load_config_total (fs1 fs2 : FS) :
    (fs1.file = none → Config.loadConfig fs1 = Config.defaultConfig) ∧
    (fs1.file = some .unreadable → Config.loadConfig fs1 = Config.defaultConfig) ∧
    (fs1.file = some .invalid → Config.loadConfig fs1 = Config.defaultConfig) ∧
    (∀ v, fs1.file = some (.valid v) → Config.loadConfig fs1 = v) ∧
    (fs2.file = none → ConfigV2.loadConfig fs2 = ConfigV2.defaultConfig) ∧
    (fs2.file = some .unreadable → ConfigV2.loadConfig fs2 = ConfigV2.defaultConfig) ∧
    (fs2.file = some .invalid → ConfigV2.loadConfig fs2 = ConfigV2.defaultConfig) ∧
    (∀ v, fs2.file = some (.valid v) → ConfigV2.loadConfig fs2 = v) := by
  refine ⟨fun h => ?_, fun h => ?_, fun h => ?_, fun v h => ?_,
    fun h => ?_, fun h => ?_, fun h => ?_, fun v h => ?_⟩ <;>
    simp [Config.loadConfig, ConfigV2.loadConfig, h]

/-- Witness for C5 on concrete file states. -/
theorem load_config_total_witness :
    Config.loadConfig ⟨false, none⟩ = Config.defaultConfig ∧
    Config.loadConfig ⟨true, some (.valid (.num 7))⟩ = JValue.num 7 ∧
    ConfigV2.loadConfig ⟨false, some .invalid⟩ = ConfigV2.defaultConfig :=
  ⟨(load_config_total ⟨false, none⟩ ⟨false, none⟩).1 rfl,
   (load_config_total ⟨true, some (.valid (.num 7))⟩ ⟨false, none⟩).2.2.2.1
     (JValue.num 7) rfl,
   (load_config_total ⟨false, none⟩ ⟨false, some .invalid⟩).2.2.2.2.2.2.1 rfl⟩

/-- C8: round trip of the persisted configuration: a successful
`saveConfig(c)` (write succeeds, no error returned) followed by `loadConfig()`
returns `c`, in both config modules. -/
theorem save_load_round_trip (c : JValue) (fs1 fs2 : FS) :
    (Config.saveConfig c fs1 true).2 = false ∧
    Config.loadConfig (Config.saveConfig c fs1 true).1 = c ∧
    (ConfigV2.saveConfig c fs2 true).2 = false ∧
    ConfigV2.loadConfig (ConfigV2.saveConfig c fs2 true).1 = c :=
  ⟨rfl, rfl, rfl, rfl⟩

/-- Invariant preserved by the unstaged `forEach` of `getAllChangedFiles`:
path-uniqueness, presence of every staged path with status `'staged'`, and
status-correctness of every entry relative to the staged path set. -/
theorem addUnstaged_fold_invariant (SP : List (List Char)) (us : List (List Char))
    (acc : List ChangedFile)
    (h1 : (acc.map fun e => e.path).Nodup)
    (h2 : ∀ p ∈ SP, (⟨p, "staged"⟩ : ChangedFile) ∈ acc)
    (h3 : ∀ e ∈ acc, (e.status = "staged" ∧ e.path ∈ SP) ∨
      (e.status = "unstaged" ∧ e.path ∉ SP)) :
    ((us.foldl addUnstaged acc).map fun e => e.path).Nodup ∧
    (∀ p ∈ SP, (⟨p, "staged"⟩ : ChangedFile) ∈ us.foldl addUnstaged acc) ∧
    (∀ e ∈ us.foldl addUnstaged acc, (e.status = "staged" ∧ e.path ∈ SP) ∨
      (e.status = "unstaged" ∧ e.path ∉ SP)) := by
  induction us generalizing acc with
  | nil => exact ⟨h1, h2, h3⟩
  | cons p rest ih =>
    simp only [List.foldl_cons]
    by_cases hmem : acc.any (fun f => f.path == p) = true
    · have : addUnstaged acc p = acc := by simp [addUnstaged, hmem]
      rw [this]
      exact ih acc h1 h2 h3
    · have hadd : addUnstaged acc p = acc ++ [⟨p, "unstaged"⟩] := by
        simp only [addUnstaged]
        rw [if_neg hmem]
      have hnp : p ∉ acc.map fun e => e.path := by
        intro hin
        obtain ⟨e, he, hep⟩ := List.mem_map.mp hin
        exact hmem (List.any_eq_true.mpr ⟨e, he, by simp [hep]⟩)
      have hpSP : p ∉ SP := by
        intro hin
        exact hnp (List.mem_map.mpr ⟨⟨p, "staged"⟩, h2 p hin, rfl⟩)
      rw [hadd]
      apply ih
      · rw [List.map_append]
        rw [List.nodup_append]
        refine ⟨h1, by simp, ?_⟩
        intro a ha hb
        simp only [List.map_cons, List.map_nil, List.mem_singleton] at hb
        rw [hb] at ha
        exact hnp ha
      · intro q hq
        exact List.mem_append_left _ (h2 q hq)
      · intro e he
        rcases List.mem_append.mp he with h | h
        · exact h3 e h
        · simp only [List.mem_singleton] at h
          subst h
          exact Or.inr ⟨rfl, hpSP⟩

/-- C10: for every pair of `git diff --name-status` outputs whose staged
listing names each path once, `getAllChangedFiles` returns no duplicate
paths; every staged path appears (exactly once, with status `'staged'`), and
every other entry is an unstaged path with status `'unstaged'`. -/
theorem all_changed_files_nodup (so uo : List Char)
    (h : (parseNameStatus so).Nodup) :
    ((getAllChangedFiles so uo).map fun e => e.path).Nodup ∧
    (∀ p ∈ parseNameStatus so,
      (⟨p, "staged"⟩ : ChangedFile) ∈ getAllChangedFiles so uo) ∧
    (∀ e ∈ getAllChangedFiles so uo,
      (e.status = "staged" ∧ e.path ∈ parseNameStatus so) ∨
      (e.status = "unstaged" ∧ e.path ∉ parseNameStatus so)) := by
  unfold getAllChangedFiles
  apply addUnstaged_fold_invariant
  · rw [List.map_map]
    have hcomp : ((fun e => ChangedFile.path e) ∘ fun p => (⟨p, "staged"⟩ : ChangedFile))
        = id := rfl
    rw [hcomp, List.map_id]
    exact h
  · intro p hp
    exact List.mem_map.mpr ⟨p, hp, rfl⟩
  · intro e he
    obtain ⟨p, hp, rfl⟩ := List.mem_map.mp he
    exact Or.inl ⟨rfl, hp⟩

/-- Witness for C10 on concrete name-status outputs sharing one path. -/
theorem all_changed_files_nodup_witness :
    ((getAllChangedFiles "M\tfoo.js\nA\tbar.js".toList "M\tfoo.js\nM\tbaz.js".toList).map
      fun e => e.path).Nodup ∧
    (∀ p ∈ parseNameStatus "M\tfoo.js\nA\tbar.js".toList,
      (⟨p, "staged"⟩ : ChangedFile)
        ∈ getAllChangedFiles "M\tfoo.js\nA\tbar.js".toList "M\tfoo.js\nM\tbaz.js".toList) ∧
    (∀ e ∈ getAllChangedFiles "M\tfoo.js\nA\tbar.js".toList "M\tfoo.js\nM\tbaz.js".toList,
      (e.status = "staged" ∧ e.path ∈ parseNameStatus "M\tfoo.js\nA\tbar.js".toList) ∨
      (e.status = "unstaged" ∧ e.path ∉ parseNameStatus "M\tfoo.js\nA\tbar.js".toList)) :=
  all_changed_files_nodup "M\tfoo.js\nA\tbar.js".toList "M\tfoo.js\nM\tbaz.js".toList
    (by decide)

/-! ### Helper lemmas about the main flow -/

/-- Events that can occur before the diff is read: checks, config handling
and plain prints.  None of them is a diff read, a prompt build, a provider
call or a commit. -/
def benignEv (e : Event) : Prop :=
  e = .printHelp ∨ e = .gitCheck ∨ e = .stagedCheck ∨ (∃ s, e = .printText s) ∨
  e = .configLoad ∨ e = .configSave ∨ e = .modelsList ∨ e = .stagedFilesList

theorem benignEv_facts (e : Event) (h : benignEv e) :
    e ≠ .diffRead ∧ e ≠ .promptBuild ∧ (∀ r, e ≠ .httpPost r) ∧
    (∀ m, e ≠ .cliRun m) ∧ (∀ m, e ≠ .gitCommit m) := by
  rcases h with rfl | rfl | rfl | ⟨s, rfl⟩ | rfl | rfl | rfl | rfl <;> simp

theorem gen_events_shape (model prompt : String) (http : HttpOutcome)
    (cli : CliOutcome) :
    (generateCommitMessage model prompt http cli).2
      = [.httpPost ⟨"http://localhost:11434/api/generate", "POST",
          ⟨model, prompt, false⟩⟩] ∨
    (generateCommitMessage model prompt http cli).2
      = [.httpPost ⟨"http://localhost:11434/api/generate", "POST",
          ⟨model, prompt, false⟩⟩, .cliRun model] := by
  rcases http with resp | _
  · exact Or.inl (by simp [generateCommitMessage])
  · rcases h : cli.err with _ | _
    · exact Or.inr (by simp [generateCommitMessage, h])
    · exact Or.inr (by simp [generateCommitMessage, h])

theorem gen_events_mem (model prompt : String) (http : HttpOutcome)
    (cli : CliOutcome) (e : Event)
    (he : e ∈ (generateCommitMessage model prompt http cli).2) :
    e = Event.httpPost ⟨"http://localhost:11434/api/generate", "POST",
      ⟨model, prompt, false⟩⟩ ∨ e = Event.cliRun model := by
  rcases gen_events_shape model prompt http cli with h | h
  · rw [h] at he
    simp only [List.mem_singleton] at he
    exact Or.inl he
  · rw [h] at he
    rcases List.mem_cons.mp he with h1 | h1
    · exact Or.inl h1
    · simp only [List.mem_singleton] at h1
      exact Or.inr h1

theorem gen_ok_of (model prompt : String) (http : HttpOutcome) (cli : CliOutcome)
    (h : http ≠ HttpOutcome.fail ∨ cli.err = false) :
    ∃ m, (generateCommitMessage model prompt http cli).1 = .ok m := by
  rcases http with resp | _
  · rcases resp with _ | r
    · exact ⟨joinNl ((splitNl []).filter fun l => !(isBlank l)), rfl⟩
    · exact ⟨joinNl ((splitNl (trimChars r)).filter fun l => !(isBlank l)), rfl⟩
  · rcases h with h | h
    · exact absurd rfl h
    · rcases cli with ⟨err, stdout⟩
      simp only at h
      subst h
      exact ⟨joinNl ((splitNl (trimChars stdout)).filter fun l => !(isBlank l)), rfl⟩

theorem trace_tail_facts (model prompt : String) (http : HttpOutcome)
    (cli : CliOutcome) (tail : List Event)
    (h1 : Event.diffRead ∉ tail) (h2 : ∀ r, Event.httpPost r ∉ tail) :
    Event.diffRead ∉
      (Event.promptBuild :: ((generateCommitMessage model prompt http cli).2 ++ tail)) ∧
    ∀ r, Event.httpPost r ∈
        (Event.promptBuild :: ((generateCommitMessage model prompt http cli).2 ++ tail)) →
      r = ⟨"http://localhost:11434/api/generate", "POST", ⟨model, prompt, false⟩⟩ := by
  constructor
  · intro hmem
    rcases List.mem_cons.mp hmem with h | h
    · simp at h
    · rcases List.mem_append.mp h with h | h
      · rcases gen_events_mem model prompt http cli _ h with h3 | h3 <;> simp at h3
      · exact h1 h
  · intro r hmem
    rcases List.mem_cons.mp hmem with h | h
    · simp at h
    · rcases List.mem_append.mp h with h | h
      · rcases gen_events_mem model prompt http cli _ h with h3 | h3
        · injection h3 with h4
        · simp at h3
      · exact absurd h (h2 r)

theorem runGenerate_trace (argv : Argv) (env : Env) (model : String)
    (pre : List Event) :
    ∃ rest, (runGenerate argv env model pre).2 = pre ++ Event.diffRead :: rest ∧
      Event.diffRead ∉ rest ∧
      (∀ r, Event.httpPost r ∈ rest →
        ∃ d, env.diffRes = Except.ok d ∧
          r = ⟨"http://localhost:11434/api/generate", "POST",
            ⟨model, buildPrompt d, false⟩⟩) := by
  rcases hdiff : env.diffRes with u | d
  · exact ⟨[], by simp [runGenerate, hdiff], by simp, by simp⟩
  · rcases hres : (generateCommitMessage model (buildPrompt d) env.http env.cli).1
      with err | msg
    · obtain ⟨hf1, hf2⟩ := trace_tail_facts model (buildPrompt d) env.http env.cli
        [] (by simp) (by simp)
      refine ⟨Event.promptBuild ::
        ((generateCommitMessage model (buildPrompt d) env.http env.cli).2 ++ []), ?_,
        hf1, fun r hr => ⟨d, rfl, hf2 r hr⟩⟩
      simp [runGenerate, hdiff, hres]
    · rcases hdry : argv.dryRun with _ | _
      · rcases hcommit : env.commitOk with _ | _
        · obtain ⟨hf1, hf2⟩ := trace_tail_facts model (buildPrompt d) env.http env.cli
            [Event.printMsg msg, Event.userEdit,
              Event.gitCommit (if (trimChars env.userInput).isEmpty then msg
                else trimChars env.userInput),
              Event.printText commitFailText] (by simp) (by simp)
          refine ⟨Event.promptBuild ::
            ((generateCommitMessage model (buildPrompt d) env.http env.cli).2 ++
              [Event.printMsg msg, Event.userEdit,
                Event.gitCommit (if (trimChars env.userInput).isEmpty then msg
                  else trimChars env.userInput),
                Event.printText commitFailText]), ?_,
            hf1, fun r hr => ⟨d, rfl, hf2 r hr⟩⟩
          simp [runGenerate, hdiff, hres, hdry, hcommit]
        · obtain ⟨hf1, hf2⟩ := trace_tail_facts model (buildPrompt d) env.http env.cli
            [Event.printMsg msg, Event.userEdit,
              Event.gitCommit (if (trimChars env.userInput).isEmpty then msg
                else trimChars env.userInput),
              Event.printMsg (if (trimChars env.userInput).isEmpty then msg
                else trimChars env.userInput)] (by simp) (by simp)
          refine ⟨Event.promptBuild ::
            ((generateCommitMessage model (buildPrompt d) env.http env.cli).2 ++
              [Event.printMsg msg, Event.userEdit,
                Event.gitCommit (if (trimChars env.userInput).isEmpty then msg
                  else trimChars env.userInput),
                Event.printMsg (if (trimChars env.userInput).isEmpty then msg
                  else trimChars env.userInput)]), ?_,
            hf1, fun r hr => ⟨d, rfl, hf2 r hr⟩⟩
          simp [runGenerate, hdiff, hres, hdry, hcommit]
      · obtain ⟨hf1, hf2⟩ := trace_tail_facts model (buildPrompt d) env.http env.cli
          [Event.printMsg msg, Event.printText dryRunText, Event.printMsg msg]
          (by simp) (by simp)
        refine ⟨Event.promptBuild ::
          ((generateCommitMessage model (buildPrompt d) env.http env.cli).2 ++
            [Event.printMsg msg, Event.printText dryRunText, Event.printMsg msg]), ?_,
          hf1, fun r hr => ⟨d, rfl, hf2 r hr⟩⟩
        simp [runGenerate, hdiff, hres, hdry]

theorem runGenerate_dry_no_commit (argv : Argv) (env : Env) (model : String)
    (pre : List Event) (hd : argv.dryRun = true)
    (hpre : ∀ m, Event.gitCommit m ∉ pre) :
    ∀ m, Event.gitCommit m ∉ (runGenerate argv env model pre).2 := by
  intro m hmem
  rcases hdiff : env.diffRes with u | d
  · simp [runGenerate, hdiff] at hmem
    exact hpre m hmem
  · rcases hres : (generateCommitMessage model (buildPrompt d) env.http env.cli).1
      with err | msg
    · simp [runGenerate, hdiff, hres] at hmem
      rcases hmem with h | h
      · exact hpre m h
      · rcases gen_events_mem _ _ _ _ _ h with h3 | h3 <;> simp at h3
    · simp [runGenerate, hdiff, hres, hd] at hmem
      rcases hmem with h | h
      · exact hpre m h
      · rcases gen_events_mem _ _ _ _ _ h with h3 | h3 <;> simp at h3

theorem runGenerate_dry_exit (argv : Argv) (env : Env) (model : String)
    (pre : List Event) (hd : argv.dryRun = true)
    (hdiff : ∃ d, env.diffRes = Except.ok d)
    (hgen : env.http ≠ HttpOutcome.fail ∨ env.cli.err = false) :
    (runGenerate argv env model pre).1 = RunResult.exited 0 := by
  obtain ⟨d, hdok⟩ := hdiff
  obtain ⟨msg, hres⟩ := gen_ok_of model (buildPrompt d) env.http env.cli hgen
  simp [runGenerate, hdok, hres, hd]

/-- Every run of `main` either stays in an early branch, whose whole trace is
benign (no diff read, no provider call, no commit), or reaches the generate
phase through `runGenerate` with a benign prefix trace. -/
theorem main_cases (argv : Argv) (env : Env) :
    (∀ e ∈ (main argv env).2, benignEv e) ∨
    (∃ model pre, main argv env = runGenerate argv env model pre ∧
      ∀ e ∈ pre, benignEv e) := by
  rcases hh : argv.help with _ | _
  · rcases hg : env.gitOk with _ | _
    · left
      intro e he
      simp [main, hh, hg] at he
      rcases he with rfl | rfl <;> simp [benignEv]
    · rcases hs : env.staged with _ | _
      · left
        intro e he
        simp [main, hh, hg, hs] at he
        rcases he with rfl | rfl | rfl | rfl <;> simp [benignEv]
      · rcases hsm : truthyOpt argv.setModel with _ | m
        · rcases hlf : truthyOpt argv.listFlag with _ | s
          · rcases hdb : argv.debug with _ | _
            · rcases hst : argv.showStaged with _ | _
              · right
                refine ⟨resolveModel argv.model (Config.loadConfig env.fs),
                  [.gitCheck, .stagedCheck, .configLoad], ?_, ?_⟩
                · simp [main, hh, hg, hs, hsm, hlf, hdb, hst]
                · intro e he
                  simp at he
                  rcases he with rfl | rfl | rfl <;> simp [benignEv]
              · rcases hsf : env.stagedFilesRes with u | files
                · left
                  intro e he
                  simp [main, hh, hg, hs, hsm, hlf, hdb, hst, hsf] at he
                  rcases he with rfl | rfl | rfl | rfl <;> simp [benignEv]
                · right
                  refine ⟨resolveModel argv.model (Config.loadConfig env.fs),
                    [.gitCheck, .stagedCheck, .configLoad, .stagedFilesList,
                      .printText files], ?_, ?_⟩
                  · simp [main, hh, hg, hs, hsm, hlf, hdb, hst, hsf]
                  · intro e he
                    simp at he
                    rcases he with rfl | rfl | rfl | rfl | rfl <;> simp [benignEv]
            · rcases hst : argv.showStaged with _ | _
              · right
                refine ⟨resolveModel argv.model (Config.loadConfig env.fs),
                  [.gitCheck, .stagedCheck, .configLoad, .printText debugText], ?_, ?_⟩
                · simp [main, hh, hg, hs, hsm, hlf, hdb, hst]
                · intro e he
                  simp at he
                  rcases he with rfl | rfl | rfl | rfl <;> simp [benignEv]
              · rcases hsf : env.stagedFilesRes with u | files
                · left
                  intro e he
                  simp [main, hh, hg, hs, hsm, hlf, hdb, hst, hsf] at he
                  rcases he with rfl | rfl | rfl | rfl | rfl <;> simp [benignEv]
                · right
                  refine ⟨resolveModel argv.model (Config.loadConfig env.fs),
                    [.gitCheck, .stagedCheck, .configLoad, .printText debugText,
                      .stagedFilesList, .printText files], ?_, ?_⟩
                  · simp [main, hh, hg, hs, hsm, hlf, hdb, hst, hsf]
                  · intro e he
                    simp at he
                    rcases he with rfl | rfl | rfl | rfl | rfl | rfl <;> simp [benignEv]
          · left
            rcases hl : env.listRes with u | out
            · intro e he
              simp [main, hh, hg, hs, hsm, hlf, hl] at he
              rcases he with rfl | rfl | rfl | rfl | rfl <;> simp [benignEv]
            · intro e he
              simp [main, hh, hg, hs, hsm, hlf, hl] at he
              rcases he with rfl | rfl | rfl | rfl | rfl <;> simp [benignEv]
        · left
          intro e he
          simp [main, hh, hg, hs, hsm] at he
          rcases he with rfl | rfl | rfl | rfl | rfl <;> simp [benignEv]
  · left
    intro e he
    simp [main, hh] at he
    rcases he with rfl
    simp [benignEv]

/-- C2: with no help flag, a working git environment and no staged changes,
the program prints `'No staged changes. Nothing to commit.'` and exits with
status 0 without reading the diff, building a prompt, calling any provider,
or committing.  (The main flow in `src` has no interactive-selection flag, so
that hypothesis of the claim is vacuous.) -/
theorem no_staged_changes_clean_exit (argv : Argv) (env : Env)
    (hh : argv.help = false) (hg : env.gitOk = true) (hs : env.staged = false) :
    main argv env = (.exited 0,
      [.gitCheck, .stagedCheck, .printText noStagedText, .printHelp]) ∧
    noStagedText = "No staged changes. Nothing to commit." ++ "\n" ∧
    ∀ e ∈ (main argv env).2, e ≠ Event.diffRead ∧ e ≠ Event.promptBuild ∧
      (∀ r, e ≠ Event.httpPost r) ∧ (∀ m, e ≠ Event.cliRun m) ∧
      (∀ m, e ≠ Event.gitCommit m) := by
  have hmain : main argv env = (.exited 0,
      [.gitCheck, .stagedCheck, .printText noStagedText, .printHelp]) := by
    simp [main, hh, hg, hs]
  refine ⟨hmain, rfl, ?_⟩
  rw [hmain]
  intro e he
  simp only [List.mem_cons, List.not_mem_nil, or_false] at he
  rcases he with rfl | rfl | rfl | rfl <;> simp

/-- Witness for C2 at a concrete flagless run with no staged changes. -/
theorem no_staged_changes_clean_exit_witness :
    main ⟨none, none, none, false, false, false, false⟩
        ⟨true, false, ⟨false, none⟩, Except.ok "", Except.ok "", Except.ok "",
          HttpOutcome.fail, ⟨false, []⟩, [], true⟩
      = (.exited 0, [.gitCheck, .stagedCheck, .printText noStagedText, .printHelp]) :=
  (no_staged_changes_clean_exit
    ⟨none, none, none, false, false, false, false⟩
    ⟨true, false, ⟨false, none⟩, Except.ok "", Except.ok "", Except.ok "",
      HttpOutcome.fail, ⟨false, []⟩, [], true⟩ rfl rfl rfl).1

/-- C3: with the dry-run flag set, no run ever invokes the commit operation;
a dry run that reaches the generate phase (no early-exit flag, healthy git
environment, staged changes, readable diff, and a generation path that
succeeds) exits with status 0 after displaying the suggested message. -/
theorem dry_run_skips_commit (argv : Argv) (env : Env) (hd : argv.dryRun = true) :
    (∀ m, Event.gitCommit m ∉ (main argv env).2) ∧
    (argv.help = false → env.gitOk = true → env.staged = true →
      truthyOpt argv.setModel = none → truthyOpt argv.listFlag = none →
      (argv.showStaged = true → ∃ s, env.stagedFilesRes = Except.ok s) →
      (∃ d, env.diffRes = Except.ok d) →
      (env.http ≠ HttpOutcome.fail ∨ env.cli.err = false) →
      (main argv env).1 = RunResult.exited 0) := by
  constructor
  · rcases main_cases argv env with hben | ⟨model, pre, hmain, hben⟩
    · intro m hmem
      exact (benignEv_facts _ (hben _ hmem)).2.2.2.2 m rfl
    · rw [hmain]
      exact runGenerate_dry_no_commit argv env model pre hd
        (fun m hm => (benignEv_facts _ (hben _ hm)).2.2.2.2 m rfl)
  · intro hh hg hs hset hlist hstf hdiff hgen
    rcases hst : argv.showStaged with _ | _
    · have hm : main argv env = runGenerate argv env
          (resolveModel argv.model (Config.loadConfig env.fs))
          ([.gitCheck, .stagedCheck, .configLoad] ++
            (if argv.debug then [Event.printText debugText] else [])) := by
        simp [main, hh, hg, hs, hset, hlist, hst]
      rw [hm]
      exact runGenerate_dry_exit _ _ _ _ hd hdiff hgen
    · obtain ⟨s, hsfr⟩ := hstf hst
      have hm : main argv env = runGenerate argv env
          (resolveModel argv.model (Config.loadConfig env.fs))
          ([.gitCheck, .stagedCheck, .configLoad] ++
            (if argv.debug then [Event.printText debugText] else []) ++
            [.stagedFilesList, .printText s]) := by
        simp [main, hh, hg, hs, hset, hlist, hst, hsfr]
      rw [hm]
      exact runGenerate_dry_exit _ _ _ _ hd hdiff hgen

/-- Witness for C3 at a concrete dry run that reaches generation. -/
theorem dry_run_skips_commit_witness :
    (∀ m, Event.gitCommit m ∉ (main ⟨none, none, none, true, false, false, false⟩
      ⟨true, true, ⟨false, none⟩, Except.ok "", Except.ok "", Except.ok "diff",
        HttpOutcome.ok (some "msg".toList), ⟨false, []⟩, [], true⟩).2) ∧
    (main ⟨none, none, none, true, false, false, false⟩
      ⟨true, true, ⟨false, none⟩, Except.ok "", Except.ok "", Except.ok "diff",
        HttpOutcome.ok (some "msg".toList), ⟨false, []⟩, [], true⟩).1
      = RunResult.exited 0 :=
  ⟨(dry_run_skips_commit ⟨none, none, none, true, false, false, false⟩
      ⟨true, true, ⟨false, none⟩, Except.ok "", Except.ok "", Except.ok "diff",
        HttpOutcome.ok (some "msg".toList), ⟨false, []⟩, [], true⟩ rfl).1,
   (dry_run_skips_commit ⟨none, none, none, true, false, false, false⟩
      ⟨true, true, ⟨false, none⟩, Except.ok "", Except.ok "", Except.ok "diff",
        HttpOutcome.ok (some "msg".toList), ⟨false, []⟩, [], true⟩ rfl).2
     rfl rfl rfl rfl rfl (fun _ => ⟨"", rfl⟩) ⟨"diff", rfl⟩ (Or.inr rfl)⟩

/-- C7: in every run that reads the staged diff, the diff is read exactly
once, before any provider call (no HTTP or CLI event precedes it), and every
HTTP request's prompt is built from that single diff snapshot. -/
theorem diff_read_once_before_provider (argv : Argv) (env : Env)
    (h : Event.diffRead ∈ (main argv env).2) :
    ((main argv env).2.count Event.diffRead = 1) ∧
    (∃ pre rest, (main argv env).2 = pre ++ Event.diffRead :: rest ∧
      (∀ r, Event.httpPost r ∉ pre) ∧ (∀ m, Event.cliRun m ∉ pre) ∧
      Event.diffRead ∉ pre ∧ Event.diffRead ∉ rest) ∧
    (∀ r, Event.httpPost r ∈ (main argv env).2 →
      ∃ d, env.diffRes = Except.ok d ∧ r.body.prompt = buildPrompt d) := by
  rcases main_cases argv env with hben | ⟨model, pre, hmain, hben⟩
  · exact absurd rfl ((benignEv_facts _ (hben _ h)).1)
  · obtain ⟨rest, htr, hr1, hr2⟩ := runGenerate_trace argv env model pre
    have htrace : (main argv env).2 = pre ++ Event.diffRead :: rest := by
      rw [hmain, htr]
    have hpre1 : ∀ r, Event.httpPost r ∉ pre :=
      fun r hm => (benignEv_facts _ (hben _ hm)).2.2.1 r rfl
    have hpre2 : ∀ m, Event.cliRun m ∉ pre :=
      fun m hm => (benignEv_facts _ (hben _ hm)).2.2.2.1 m rfl
    have hpre3 : Event.diffRead ∉ pre :=
      fun hm => (benignEv_facts _ (hben _ hm)).1 rfl
    refine ⟨?_, ⟨pre, rest, htrace, hpre1, hpre2, hpre3, hr1⟩, ?_⟩
    · rw [htrace, List.count_append, List.count_eq_zero.mpr hpre3]
      simp [List.count_cons, List.count_eq_zero.mpr hr1]
    · intro r hmem
      rw [htrace] at hmem
      rcases List.mem_append.mp hmem with hx | hx
      · exact absurd hx (hpre1 r)
      · rcases List.mem_cons.mp hx with hx1 | hx1
        · simp at hx1
        · obtain ⟨d, hdok, hreq⟩ := hr2 r hx1
          exact ⟨d, hdok, by rw [hreq]⟩

/-- Witness for C7 at a concrete run that reaches generation. -/
theorem diff_read_once_before_provider_witness :
    ((main ⟨none, none, none, true, false, false, false⟩
      ⟨true, true, ⟨false, none⟩, Except.ok "", Except.ok "", Except.ok "d1",
        HttpOutcome.ok (some "m1".toList), ⟨false, []⟩, [], true⟩).2.count
          Event.diffRead = 1) ∧
    (∃ pre rest, (main ⟨none, none, none, true, false, false, false⟩
      ⟨true, true, ⟨false, none⟩, Except.ok "", Except.ok "", Except.ok "d1",
        HttpOutcome.ok (some "m1".toList), ⟨false, []⟩, [], true⟩).2
        = pre ++ Event.diffRead :: rest ∧
      (∀ r, Event.httpPost r ∉ pre) ∧ (∀ m, Event.cliRun m ∉ pre) ∧
      Event.diffRead ∉ pre ∧ Event.diffRead ∉ rest) ∧
    (∀ r, Event.httpPost r ∈ (main ⟨none, none, none, true, false, false, false⟩
      ⟨true, true, ⟨false, none⟩, Except.ok "", Except.ok "", Except.ok "d1",
        HttpOutcome.ok (some "m1".toList), ⟨false, []⟩, [], true⟩).2 →
      ∃ d, (⟨true, true, ⟨false, none⟩, Except.ok "", Except.ok "", Except.ok "d1",
        HttpOutcome.ok (some "m1".toList), ⟨false, []⟩, [], true⟩ : Env).diffRes
          = Except.ok d ∧ r.body.prompt = buildPrompt d) :=
  diff_read_once_before_provider ⟨none, none, none, true, false, false, false⟩
    ⟨true, true, ⟨false, none⟩, Except.ok "", Except.ok "", Except.ok "d1",
      HttpOutcome.ok (some "m1".toList), ⟨false, []⟩, [], true⟩ (by decide)
